import Mathlib

/-!
# Verification of the module-inlining engine (`syn-inline-mod`)

A shallow embedding of the crate's core: candidate-path generation
(`src/mod_path.rs`), the file resolver abstraction (`src/resolver.rs`),
the recursive inlining visitor (`src/visitor.rs`) and the public entry
points plus provenance extraction (`src/lib.rs`).

Paths are modelled at the byte level, as Rust `PathBuf` values are OS
strings: a component is a list of bytes, a path is a flag for
absoluteness plus a list of components.  `Nat` stands for a byte.
-/

set_option autoImplicit false

namespace SynInlineMod

/-- Bytes of an ASCII string literal, used for concrete identifiers and
the fixed file-name constants (`mod.rs`, `rs`, attribute names). -/
def strBytes (s : String) : List Nat :=
  s.toList.map Char.toNat

/-- A single path component, as raw bytes (Rust: one `Component` of a path). -/
abbrev Component := List Nat

/-- Byte value of the path separator `/`. -/
def sepByte : Nat := 47

/-- Byte value of `.`, used for extension handling. -/
def dotByte : Nat := 46

/-- A file-system path: Rust `std::path::PathBuf`, viewed as its list of
normal components plus whether it is absolute. -/
structure PathBuf where
  absolute : Bool
  components : List Component
deriving DecidableEq, Repr

/-- A relative path made of the given components. -/
def PathBuf.rel (cs : List Component) : PathBuf :=
  { absolute := false, components := cs }

/-- The empty (relative) path: Rust `PathBuf::new()`. -/
def PathBuf.empty : PathBuf :=
  PathBuf.rel []

/-- Rust `PathBuf::pop`: remove the last component (file name), keeping
the path unchanged when there is no parent. -/
def PathBuf.pop (p : PathBuf) : PathBuf :=
  { p with components := p.components.dropLast }

/-- Rust `PathBuf::push`/`Path::join`: appending an absolute path
replaces the receiver, appending a relative path concatenates components. -/
def PathBuf.join (p q : PathBuf) : PathBuf :=
  if q.absolute then q
  else { p with components := p.components ++ q.components }

/-- Rust `Path::file_name`: the last component, when present. -/
def PathBuf.file_name (p : PathBuf) : Option Component :=
  p.components.getLast?

/-- Index of the last `.` byte in a file name, when one exists. -/
def lastDotIdx (c : Component) : Option Nat :=
  ((List.range c.length).filter fun i => c.get? i == some dotByte).getLast?

/-- Rust `Path::file_stem` on a single file name: the part before the
last dot, except that a leading dot does not begin an extension. -/
def stemOfName (c : Component) : Component :=
  match lastDotIdx c with
  | some i => if i = 0 then c else c.take i
  | none => c

/-- Rust `Path::extension` on a single file name. -/
def extOfName (c : Component) : Option Component :=
  match lastDotIdx c with
  | some i => if i = 0 then none else some (c.drop (i + 1))
  | none => none

/-- Rust `Path::file_stem` of a path. -/
def PathBuf.file_stem (p : PathBuf) : Option Component :=
  p.file_name.map stemOfName

/-- Rust `PathBuf::set_extension`: replace the extension of the file
name; a no-op when the path has no file name. -/
def PathBuf.set_extension (p : PathBuf) (ext : Component) : PathBuf :=
  match p.components.getLast? with
  | none => p
  | some name =>
      let newName := if ext = [] then stemOfName name
        else stemOfName name ++ dotByte :: ext
      { p with components := p.components.dropLast ++ [newName] }

/-- Split a byte sequence at every separator byte (groups between
separators, in order; empty groups for leading or doubled separators). -/
def splitSep : List Nat → List (List Nat)
  | [] => [[]]
  | b :: rest =>
      if b = sepByte then [] :: splitSep rest
      else
        match splitSep rest with
        | [] => [[b]]
        | g :: gs => (b :: g) :: gs

/-- Rust `PathBuf::from(string)` / `OsString` to `PathBuf`: a leading
separator makes the path absolute; empty groups between separators do
not contribute components. -/
def PathBuf.ofBytes (bs : List Nat) : PathBuf :=
  { absolute := bs.head? == some sepByte,
    components := (splitSep bs).filter fun c => !c.isEmpty }

/-- Separator-interleaved concatenation of components (the byte content
of a relative path's OS string). -/
def joinSep : List Component → List Nat
  | [] => []
  | [c] => c
  | c :: rest => c ++ sepByte :: joinSep rest

/-- Crate `os_str_bytes`, `Path::to_bytes` (Unix): the raw bytes of the
path's OS string. -/
def PathBuf.to_bytes (p : PathBuf) : List Nat :=
  (if p.absolute then [sepByte] else []) ++ joinSep p.components

/-- A path whose components are non-empty and free of separator bytes,
as every path actually assembled from identifiers and path literals is. -/
def PathBuf.wellFormed (p : PathBuf) : Prop :=
  ∀ c ∈ p.components, c ≠ [] ∧ sepByte ∉ c

instance (p : PathBuf) : Decidable p.wellFormed := by
  unfold PathBuf.wellFormed; infer_instance

/-- `mod_path.rs`, `ModPath::is_mod_file`: whether the file name is
exactly `mod.rs`, so that named children resolve in the same directory. -/
def PathBuf.is_mod_file (p : PathBuf) : Bool :=
  (p.file_name.map fun s => s == strBytes "mod.rs").getD false

/-- The shape of a `syn::Attribute`'s meta, at the granularity the crate
inspects it: a name-value pair with a string literal (`#[name = "v"]`,
value bytes recorded), a parenthesised argument that parses as a byte
string literal (`#[name(b"...")]`), or anything else. -/
inductive AttrKind where
  | nameValueStr (value : List Nat)
  | byteStrArgs (bytes : List Nat)
  | otherKind (tag : Nat)
deriving DecidableEq, Repr

/-- A `syn::Attribute`: its path (assumed a single identifier, as the
crate only ever tests the path with `is_ident`) and its meta shape. -/
structure Attribute where
  name : Component
  kind : AttrKind
deriving DecidableEq, Repr

/-- `lib.rs`, `SYN_INLINE_MOD_PATH`: the reserved provenance marker name. -/
def markerName : Component :=
  strBytes "syn_inline_mod_path"

/-- Result of `attr.parse_args::<LitByteStr>()`: the byte payload when
the attribute's arguments are a single byte-string literal. -/
def parseByteStr (a : Attribute) : Option (List Nat) :=
  match a.kind with
  | .byteStrArgs bs => some bs
  | _ => none

/-- `mod_path.rs`, `ModSegment`: one step of the module path, either the
module's identifier or the value of an explicit `#[path = "..."]`. -/
inductive ModSegment where
  | Ident (name : Component)
  | Path (p : PathBuf)
deriving DecidableEq, Repr

/-- `ModSegment::is_ident`. -/
def ModSegment.is_ident : ModSegment → Bool
  | .Ident _ => true
  | .Path _ => false

/-- `impl From<ModSegment> for PathBuf`: an identifier becomes a single
relative component, an explicit path keeps its literal value. -/
def ModSegment.toPathBuf : ModSegment → PathBuf
  | .Ident n => PathBuf.rel [n]
  | .Path p => p

/-- `mod_path.rs`, scanning in `From<&ItemMod> for ModSegment`: the
value of the first `#[path = "..."]` name-value attribute, if any. -/
def pathAttrValue : List Attribute → Option (List Nat)
  | [] => none
  | a :: rest =>
      match a.kind with
      | .nameValueStr v =>
          if a.name = strBytes "path" then some v else pathAttrValue rest
      | _ => pathAttrValue rest

/-- `From<&ItemMod> for ModSegment`: an explicit `#[path]` attribute
overrides the identifier. -/
def modSegmentOf (attrs : List Attribute) (ident : Component) : ModSegment :=
  match pathAttrValue attrs with
  | some v => ModSegment.Path (PathBuf.ofBytes v)
  | none => ModSegment.Ident ident

/-- `mod_path.rs`, `ModContext`: the stack of mod segments from the file
root to the declaration being resolved. -/
abbrev ModContext := List ModSegment

namespace ModContext

/-- `ModContext::is_last_ident`. -/
def is_last_ident (ctx : ModContext) : Bool :=
  (ctx.getLast?.map ModSegment.is_ident).getD false

/-- The single relative path obtained by joining every segment in order
(the `buf` accumulated in `ModContext::to_path_bufs`). -/
def joined (ctx : ModContext) : PathBuf :=
  ctx.foldl (fun b seg => b.join seg.toPathBuf) PathBuf.empty

/-- `ModContext::to_path_bufs`: one interpretation when the last segment
is an explicit path, otherwise both `foo.rs` and `foo/mod.rs`. -/
def to_path_bufs (ctx : ModContext) : List PathBuf :=
  let buf := joined ctx
  if ¬ is_last_ident ctx then [buf]
  else [buf.set_extension (strBytes "rs"),
        buf.join (PathBuf.rel [strBytes "mod.rs"])]

/-- The directory candidates are generated under (`relative_to` step 1):
the parent directory, extended by the file stem for files that are
neither the root nor a `mod.rs`.  `none` models the panic of
`base.file_stem().unwrap()` when the base path has no file name. -/
def baseDir (base : PathBuf) (root : Bool) : Option PathBuf :=
  if root || base.is_mod_file then some base.pop
  else base.file_stem.map fun stem => base.pop.join (PathBuf.rel [stem])

/-- `ModContext::relative_to`: the ordered candidate locations for the
module's source, relative to the current file.  `none` models the panic
of `base.file_stem().unwrap()`. -/
def relative_to (ctx : ModContext) (base : PathBuf) (root : Bool) :
    Option (List PathBuf) :=
  (baseDir base root).map fun d => (to_path_bufs ctx).map fun e => d.join e

end ModContext

/-- `visitor.rs`, choice of `first_candidate`: the first candidate that
exists, falling back to the last candidate; `none` models the `expect`
panic on an empty candidate list. -/
def chooseCandidate (ex : PathBuf → Bool) (cs : List PathBuf) : Option PathBuf :=
  match cs.find? ex with
  | some c => some c
  | none => cs.getLast?

/-- `lib.rs`, `Error`: an IO failure while opening or reading, or a
`syn` parse failure.  The payload stands for the underlying error value. -/
inductive Error where
  | Io (code : Nat)
  | Parse (code : Nat)
deriving DecidableEq, Repr

/-- `lib.rs`, `InlineError`: one record per module declaration that
could not be expanded.  The `Span` field of the original is not
modelled; the module name identifies the declaration. -/
structure InlineError where
  src_path : PathBuf
  module_name : Component
  path : PathBuf
  kind : Error
deriving DecidableEq, Repr

/-- A `syn::Item` as the visitor distinguishes them: a module item
(attributes, identifier, optional inline content) or any other item,
which the traversal leaves untouched. -/
inductive Item where
  | itemMod (attrs : List Attribute) (ident : Component)
      (content : Option (List Item))
  | other (tag : Nat)
deriving Repr

/-- A `syn::File`: file-level attributes and items. -/
structure File where
  attrs : List Attribute
  items : List Item
deriving Repr

/-- One invocation of the `on_load` callback: the path passed and the
raw contents read from it. -/
abbrev LoadEvent := PathBuf × List Nat

/-- `resolver.rs`, `FileResolver`: existence check plus resolution of a
path into a parsed file.  `resolve` also yields the `on_load` callback
invocations it performs, in order (empty for resolvers with no callback). -/
structure Resolver where
  path_exists : PathBuf → Bool
  resolve : PathBuf → Except Error File × List LoadEvent

/-- `visitor.rs`: the injected `#[syn_inline_mod_path(b"...")]` attribute
carrying the loaded candidate's bytes. -/
def provenanceAttr (c : PathBuf) : Attribute :=
  { name := markerName, kind := .byteStrArgs c.to_bytes }

/-- The unit of work of the recursive walk: run a whole file
(`Visitor::visit`), a list of sibling items, or one module item
(`Visitor::visit_item_mod_mut`). -/
inductive VTask where
  | file (path : PathBuf) (root : Bool)
  | items (path : PathBuf) (root : Bool) (ctx : ModContext)
      (list : List Item)
  | itemMod (path : PathBuf) (root : Bool) (ctx : ModContext)
      (attrs : List Attribute) (ident : Component)
      (content : Option (List Item))

/-- Result type of each task: a file task yields the callback events and
either the initial error or the rewritten file with the error log; item
tasks yield the rewritten item(s) with their errors and events. -/
@[reducible] def VOut : VTask → Type
  | .file _ _ => List LoadEvent × Except Error (File × List InlineError)
  | .items _ _ _ _ => List Item × List InlineError × List LoadEvent
  | .itemMod _ _ _ _ _ _ => Item × List InlineError × List LoadEvent

/-- The recursive walk of `visitor.rs`, fuelled so that the recursion
through externally-loaded files (which the source performs unboundedly,
see the crate's missing cycle detection) is structural: every recursive
step spends one unit of fuel, and `none` means the fuel ran out or the
code would panic.

`file` is `Visitor::visit`: resolve the path, then walk the parsed
file's items with a fresh mod context.  `items` walks siblings in
source order, concatenating errors and events.  `itemMod` is
`Visitor::visit_item_mod_mut`: push the declaration's segment; recurse
into an inline body, or resolve a forward declaration through the
chosen candidate, splicing in the loaded body on success and recording
one `InlineError` (when a log is attached, `track`) on failure. -/
def run (res : Resolver) (annotate track : Bool) :
    Nat → (t : VTask) → Option (VOut t)
  | 0, _ => none
  | _ + 1, .items _ _ _ [] => some ([], [], [])
  | f + 1, .items path root ctx (.other t :: rest) =>
      (run res annotate track f (.items path root ctx rest)).map fun r =>
        (.other t :: r.1, r.2.1, r.2.2)
  | f + 1, .items path root ctx (.itemMod attrs ident content :: rest) =>
      (run res annotate track f
          (.itemMod path root ctx attrs ident content)).bind fun i' =>
        (run res annotate track f (.items path root ctx rest)).map fun r =>
          (i'.1 :: r.1, i'.2.1 ++ r.2.1, i'.2.2 ++ r.2.2)
  | f + 1, .file path root =>
      match res.resolve path with
      | (.error e, ev) => some (ev, .error e)
      | (.ok file, ev) =>
          (run res annotate track f (.items path root [] file.items)).map
            fun r => (ev ++ r.2.2, .ok ({ file with items := r.1 }, r.2.1))
  | f + 1, .itemMod path root ctx attrs ident content =>
      let ctx' := ctx ++ [modSegmentOf attrs ident]
      match content with
      | some items =>
          (run res annotate track f (.items path root ctx' items)).map fun r =>
            (.itemMod attrs ident (some r.1), r.2.1, r.2.2)
      | none =>
          (ModContext.relative_to ctx' path root).bind fun candidates =>
            (chooseCandidate res.path_exists candidates).bind fun c =>
              (run res annotate track f (.file c false)).map fun r =>
                match r.2 with
                | .ok fl =>
                    (.itemMod
                      ((if annotate then attrs ++ [provenanceAttr c]
                        else attrs) ++ fl.1.attrs)
                      ident (some fl.1.items), fl.2, r.1)
                | .error kind =>
                    (.itemMod attrs ident none,
                     if track then [⟨path, ident, c, kind⟩] else [],
                     r.1)

/-- `visitor.rs`, `Visitor::visit` (see `run`). -/
def visit (fuel : Nat) (res : Resolver) (annotate track : Bool)
    (path : PathBuf) (root : Bool) :
    Option (List LoadEvent × Except Error (File × List InlineError)) :=
  run res annotate track fuel (.file path root)

/-- Walking a list of sibling items in source order (see `run`). -/
def visitItems (fuel : Nat) (res : Resolver) (annotate track : Bool)
    (path : PathBuf) (root : Bool) (ctx : ModContext) (l : List Item) :
    Option (List Item × List InlineError × List LoadEvent) :=
  run res annotate track fuel (.items path root ctx l)

/-- `visitor.rs`, `Visitor::visit_item_mod_mut` (see `run`). -/
def visitItemMod (fuel : Nat) (res : Resolver) (annotate track : Bool)
    (path : PathBuf) (root : Bool) (ctx : ModContext)
    (attrs : List Attribute) (ident : Component)
    (content : Option (List Item)) :
    Option (Item × List InlineError × List LoadEvent) :=
  run res annotate track fuel (.itemMod path root ctx attrs ident content)

/-- `syn::visit_mut::VisitMut::visit_item_mut`: module items are handled
by `visit_item_mod_mut`; every other item is left as-is. -/
def visitItem (fuel : Nat) (res : Resolver) (annotate track : Bool)
    (path : PathBuf) (root : Bool) (ctx : ModContext) :
    Item → Option (Item × List InlineError × List LoadEvent)
  | .other t => some (.other t, [], [])
  | .itemMod attrs ident content =>
      visitItemMod fuel res annotate track path root ctx attrs ident content

/-- `lib.rs`, `InliningResult`: best-effort output, the error log, and
whether paths were annotated. -/
structure InliningResult where
  output : File
  errors : List InlineError
  paths_annotated : Bool
deriving Repr

/-- `lib.rs`, `InlinerBuilder`: the only two configuration options the
entry point exposes. -/
structure InlinerBuilder where
  root : Bool
  annotate_paths : Bool
deriving DecidableEq, Repr

/-- `Default for InlinerBuilder`. -/
def InlinerBuilder.default : InlinerBuilder :=
  { root := true, annotate_paths := false }

/-- `lib.rs`, `InlinerBuilder::parse_internal`: run the visitor on the
source file with an error log always attached (`errors = Some(vec![])`),
surfacing an initial-file failure as the call's error and otherwise
packaging output and collected errors into an `InliningResult`. -/
def parse_internal (fuel : Nat) (b : InlinerBuilder) (res : Resolver)
    (src_file : PathBuf) :
    Option (List LoadEvent × Except Error InliningResult) :=
  match visit fuel res b.annotate_paths true src_file b.root with
  | none => none
  | some (evs, .error e) => some (evs, .error e)
  | some (evs, .ok (f, errs)) =>
      some (evs, .ok { output := f, errors := errs,
                       paths_annotated := b.annotate_paths })

/-- The external collaborators of `FsResolver`: the file system's
existence check and raw read, and `syn::parse_file`.  Payloads of the
error cases stand for the underlying `io::Error` and `syn::Error`. -/
structure FsEnv where
  pathIsOnDisk : PathBuf → Bool
  read : PathBuf → Except Nat (List Nat)
  parse : List Nat → Except Nat File

/-- `resolver.rs`, `FsResolver::resolve`: read the file (an IO failure
returns early), then parse it, invoking the `on_load` callback exactly
once after a successful read, whether or not parsing succeeded. -/
def fsResolve (env : FsEnv) (path : PathBuf) :
    Except Error File × List LoadEvent :=
  match env.read path with
  | .error e => (.error (.Io e), [])
  | .ok src =>
      match env.parse src with
      | .ok f => (.ok f, [(path, src)])
      | .error e => (.error (.Parse e), [(path, src)])

/-- `FsResolver` as a `Resolver`: `path_exists` asks the file system. -/
def fsResolver (env : FsEnv) : Resolver :=
  { path_exists := env.pathIsOnDisk, resolve := fsResolve env }

/-- `lib.rs`, `InlinerBuilder::inline_with_callback`: `parse_internal`
against a fresh `FsResolver` wrapping the caller's callback. -/
def inline_with_callback (fuel : Nat) (b : InlinerBuilder) (env : FsEnv)
    (src_file : PathBuf) :
    Option (List LoadEvent × Except Error InliningResult) :=
  parse_internal fuel b (fsResolver env) src_file

/-- `lib.rs`, `InlineModPath`: extracted module path plus the attributes
before and after the marker. -/
structure InlineModPath where
  path : PathBuf
  outer_attributes : List Attribute
  inner_attributes : List Attribute
deriving DecidableEq, Repr

/-- `lib.rs`, `find_mod_path`, parameterised by the platform's
`PathBuf::from_vec` (which may reject byte sequences on some
platforms).  Scans for the first attribute named with the reserved
marker whose arguments parse as a byte-string literal; `Except.error`
models the `expect` panic that fires when that attribute's payload is
not convertible into a path. -/
def find_mod_path (fromVec : List Nat → Option PathBuf) :
    List Attribute → Except Unit (Option InlineModPath)
  | [] => .ok none
  | a :: rest =>
      if a.name = markerName then
        match parseByteStr a with
        | some bytes =>
            match fromVec bytes with
            | some p => .ok (some ⟨p, [], rest⟩)
            | none => .error ()
        | none =>
            (find_mod_path fromVec rest).map fun r =>
              r.map fun m =>
                { m with outer_attributes := a :: m.outer_attributes }
      else
        (find_mod_path fromVec rest).map fun r =>
          r.map fun m =>
            { m with outer_attributes := a :: m.outer_attributes }

/-- `PathBuf::from_vec` on Unix (`os_str_bytes`): every byte sequence is
a valid path. -/
def unixFromVec (bs : List Nat) : Option PathBuf :=
  some (PathBuf.ofBytes bs)

/-! ## Concrete fixtures

Small file systems and syntax trees used to instantiate the theorems on
definite inputs, mirroring the crate's own test set-ups. -/

/-- A root file `src/lib.rs`. -/
def wLib : PathBuf := PathBuf.rel [strBytes "src", strBytes "lib.rs"]

/-- The single-file candidate `src/first.rs` for `mod first;` in `wLib`. -/
def wFirstRs : PathBuf := PathBuf.rel [strBytes "src", strBytes "first.rs"]

/-- The directory-marker candidate `src/first/mod.rs`. -/
def wFirstModRs : PathBuf :=
  PathBuf.rel [strBytes "src", strBytes "first", strBytes "mod.rs"]

/-- A user-written outer attribute. -/
def wOuter : Attribute := { name := strBytes "outer", kind := .otherKind 5 }

/-- A file-level inner attribute of a loaded module body. -/
def wInner : Attribute := { name := strBytes "inner", kind := .otherKind 9 }

/-- The forward declaration `mod first;` with no attributes. -/
def wModFirst : Item := .itemMod [] (strBytes "first") none

/-- A file system in which `src/lib.rs` declares `mod first;`, only the
candidate `src/first.rs` exists, and that candidate holds a file with
one inner attribute and no items. -/
def wEnvOk : FsEnv :=
  { pathIsOnDisk := fun p => p == wFirstRs
    read := fun p =>
      if p == wLib then .ok (strBytes "mod first;")
      else if p == wFirstRs then .ok (strBytes "x")
      else .error 2
    parse := fun src =>
      if src == strBytes "mod first;" then
        .ok { attrs := [], items := [.itemMod [wOuter] (strBytes "first") none] }
      else if src == strBytes "x" then .ok { attrs := [wInner], items := [] }
      else .error 1 }

/-- A file system in which `src/lib.rs` declares `mod first;` but no
candidate for `first` exists or can be read. -/
def wEnvMissing : FsEnv :=
  { pathIsOnDisk := fun _ => false
    read := fun p =>
      if p == wLib then .ok (strBytes "mod first;") else .error 2
    parse := fun src =>
      if src == strBytes "mod first;" then
        .ok { attrs := [], items := [wModFirst] }
      else .error 1 }

/-- The single-file candidate `src/a.rs`. -/
def wARs : PathBuf := PathBuf.rel [strBytes "src", strBytes "a.rs"]

/-- The single-file candidate `src/b.rs`. -/
def wBRs : PathBuf := PathBuf.rel [strBytes "src", strBytes "b.rs"]

/-- The forward declaration `mod a;`. -/
def wModA : Item := .itemMod [] (strBytes "a") none

/-- The forward declaration `mod b;`. -/
def wModB : Item := .itemMod [] (strBytes "b") none

/-- A file system in which `src/lib.rs` declares `mod a; mod b;` and
both `src/a.rs` and `src/b.rs` exist with distinct one-item bodies. -/
def wEnvTwo : FsEnv :=
  { pathIsOnDisk := fun p => p == wARs || p == wBRs
    read := fun p =>
      if p == wLib then .ok (strBytes "mod a; mod b;")
      else if p == wARs then .ok (strBytes "A")
      else if p == wBRs then .ok (strBytes "B")
      else .error 2
    parse := fun src =>
      if src == strBytes "mod a; mod b;" then
        .ok { attrs := [], items := [wModA, wModB] }
      else if src == strBytes "A" then .ok { attrs := [], items := [.other 1] }
      else if src == strBytes "B" then .ok { attrs := [], items := [.other 2] }
      else .error 1 }

/-! ## General lemmas about the model -/

/-- `to_path_bufs` produces at least one candidate on every context. -/
theorem to_path_bufs_ne_nil (ctx : ModContext) :
    ModContext.to_path_bufs ctx ≠ [] := by
  unfold ModContext.to_path_bufs
  split <;> simp

/-- `relative_to` factors through `baseDir`. -/
theorem relative_to_eq (ctx : ModContext) (base : PathBuf) (root : Bool) :
    ModContext.relative_to ctx base root =
      (ModContext.baseDir base root).map fun d =>
        (ModContext.to_path_bufs ctx).map fun e => d.join e := rfl

/-- Fuel monotonicity: a result obtained with some fuel is stable under
more fuel, so the fuel is a pure artifact of the embedding and any
statement may be read at sufficiently large fuel. -/
theorem run_mono (res : Resolver) (an tr : Bool) :
    ∀ (f : Nat) (t : VTask) (r : VOut t) (f' : Nat), f ≤ f' →
      run res an tr f t = some r → run res an tr f' t = some r := by
  intro f
  induction f with
  | zero => intro t r f' _ h; simp [run] at h
  | succ f ih =>
      intro t r f' hle h
      obtain ⟨f'', rfl⟩ : ∃ g, f' = g + 1 := ⟨f' - 1, by omega⟩
      have hff : f ≤ f'' := by omega
      cases t with
      | file path root =>
          rcases hres : res.resolve path with ⟨e | file, ev⟩ <;>
            simp only [run, hres] at h ⊢
          · exact h
          · simp only [Option.map_eq_some'] at h ⊢
            obtain ⟨a, ha, rfl⟩ := h
            exact ⟨a, ih _ _ f'' hff ha, rfl⟩
      | items path root ctx list =>
          cases list with
          | nil => simpa [run] using h
          | cons i rest =>
              cases i with
              | other tag =>
                  simp only [run, Option.map_eq_some'] at h ⊢
                  obtain ⟨a, ha, rfl⟩ := h
                  exact ⟨a, ih _ _ f'' hff ha, rfl⟩
              | itemMod attrs ident content =>
                  simp only [run, Option.bind_eq_some,
                    Option.map_eq_some'] at h ⊢
                  obtain ⟨a, ha, b, hb, rfl⟩ := h
                  exact ⟨a, ih _ _ f'' hff ha, b, ih _ _ f'' hff hb, rfl⟩
      | itemMod path root ctx attrs ident content =>
          cases content with
          | some items =>
              simp only [run, Option.map_eq_some'] at h ⊢
              obtain ⟨a, ha, rfl⟩ := h
              exact ⟨a, ih _ _ f'' hff ha, rfl⟩
          | none =>
              simp only [run, Option.bind_eq_some, Option.map_eq_some'] at h ⊢
              obtain ⟨cands, hcands, c, hc, r0, hr0, rfl⟩ := h
              exact ⟨cands, hcands, c, hc, r0, ih _ _ f'' hff hr0, rfl⟩

/-- One sibling step: visiting `i :: rest` is visiting `i`, then `rest`,
with results, errors and events concatenated in that order. -/
theorem visitItems_cons (f : Nat) (res : Resolver) (an tr : Bool)
    (path : PathBuf) (root : Bool) (ctx : ModContext) (i : Item)
    (rest : List Item) :
    visitItems (f + 1) res an tr path root ctx (i :: rest) =
      (visitItem f res an tr path root ctx i).bind fun a =>
        (visitItems f res an tr path root ctx rest).map fun b =>
          (a.1 :: b.1, a.2.1 ++ b.2.1, a.2.2 ++ b.2.2) := by
  cases i with
  | other t =>
      cases hrun : run res an tr f (.items path root ctx rest) <;>
        simp [visitItems, visitItem, run, hrun]
  | itemMod attrs ident content => rfl

/-- Sibling decomposition: a successful walk of `l1 ++ l2` splits into a
successful walk of `l1` followed by one of `l2`, with outputs, errors
and events concatenated in source order. -/
theorem visitItems_append (res : Resolver) (an tr : Bool) (path : PathBuf)
    (root : Bool) (ctx : ModContext) (l1 : List Item) :
    ∀ (fuel : Nat) (l2 out : List Item) (errs : List InlineError)
      (evs : List LoadEvent),
      visitItems fuel res an tr path root ctx (l1 ++ l2) =
        some (out, errs, evs) →
      ∃ o1 e1 v1 o2 e2 v2,
        visitItems fuel res an tr path root ctx l1 = some (o1, e1, v1) ∧
        visitItems fuel res an tr path root ctx l2 = some (o2, e2, v2) ∧
        out = o1 ++ o2 ∧ errs = e1 ++ e2 ∧ evs = v1 ++ v2 := by
  induction l1 with
  | nil =>
      intro fuel l2 out errs evs h
      match fuel with
      | 0 => simp [visitItems, run] at h
      | f + 1 =>
          exact ⟨[], [], [], out, errs, evs, by simp [visitItems, run],
            h, by simp, by simp, by simp⟩
  | cons i l1 ih =>
      intro fuel l2 out errs evs h
      match fuel with
      | 0 => simp [visitItems, run] at h
      | f + 1 =>
          rw [List.cons_append, visitItems_cons] at h
          simp only [Option.bind_eq_some, Option.map_eq_some'] at h
          obtain ⟨a, ha, b, hb, heq⟩ := h
          simp only [Prod.mk.injEq] at heq
          obtain ⟨ho0, he0, hv0⟩ := heq
          subst ho0; subst he0; subst hv0
          obtain ⟨o1, e1, v1, o2, e2, v2, h1, h2, ho, he, hv⟩ :=
            ih f l2 b.1 b.2.1 b.2.2 (by rw [hb])
          refine ⟨a.1 :: o1, a.2.1 ++ e1, a.2.2 ++ v1, o2, e2, v2, ?_, ?_,
            ?_, ?_, ?_⟩
          · rw [visitItems_cons]
            simp only [Option.bind_eq_some, Option.map_eq_some']
            exact ⟨a, ha, (o1, e1, v1), h1, rfl⟩
          · exact run_mono res an tr f _ _ (f + 1) (by omega) h2
          · rw [ho]; simp
          · rw [he]; simp
          · rw [hv]; simp

/-! ## The claims -/

/-- C2: for every forward module declaration the candidate list computed
from the resolution context is non-empty, the visitor's choice picks the
first candidate the resolver reports as existing, and falls back to the
last candidate when none exists, so a candidate is always chosen. -/
theorem c2_candidate_choice (ctx : ModContext) (base : PathBuf) (root : Bool)
    (ex : PathBuf → Bool) (cs : List PathBuf)
    (h : ModContext.relative_to ctx base root = some cs) :
    cs ≠ [] ∧
    (chooseCandidate ex cs).isSome = true ∧
    (∀ c, cs.find? ex = some c → chooseCandidate ex cs = some c) ∧
    (cs.find? ex = none → chooseCandidate ex cs = cs.getLast?) := by
  have hne : cs ≠ [] := by
    rw [relative_to_eq] at h
    cases hd : ModContext.baseDir base root with
    | none => rw [hd] at h; simp at h
    | some d =>
        rw [hd] at h
        simp only [Option.map_some', Option.some.injEq] at h
        subst h
        simp [to_path_bufs_ne_nil]
  refine ⟨hne, ?_, ?_, ?_⟩
  · unfold chooseCandidate
    cases hf : cs.find? ex with
    | some c => rfl
    | none => simpa [List.getLast?_isSome] using hne
  · intro c hc
    unfold chooseCandidate
    rw [hc]
  · intro hc
    unfold chooseCandidate
    rw [hc]

/-- C2 witness: concrete instantiation where no candidate exists and the
last candidate (`src/first/mod.rs`) is the definite fallback. -/
theorem c2_candidate_choice_witness :
    [wFirstRs, wFirstModRs] ≠ [] ∧
    (chooseCandidate (fun _ => false) [wFirstRs, wFirstModRs]).isSome = true ∧
    (∀ c, [wFirstRs, wFirstModRs].find? (fun _ => false) = some c →
      chooseCandidate (fun _ => false) [wFirstRs, wFirstModRs] = some c) ∧
    ([wFirstRs, wFirstModRs].find? (fun _ => false) = none →
      chooseCandidate (fun _ => false) [wFirstRs, wFirstModRs] =
        [wFirstRs, wFirstModRs].getLast?) :=
  c2_candidate_choice [ModSegment.Ident (strBytes "first")] wLib true
    (fun _ => false) [wFirstRs, wFirstModRs] (by rfl)

/-- C6: when the last context segment is a named identifier, the
candidate list is exactly the single-file form followed by the
subdirectory-marker form, in that order, for every base location. -/
theorem c6_file_before_directory (ctx : ModContext) (base : PathBuf)
    (root : Bool) (n : Component)
    (hlast : ctx.getLast? = some (.Ident n))
    (d : PathBuf) (hd : ModContext.baseDir base root = some d) :
    ModContext.relative_to ctx base root =
      some [d.join ((ModContext.joined ctx).set_extension (strBytes "rs")),
            d.join ((ModContext.joined ctx).join
              (PathBuf.rel [strBytes "mod.rs"]))] := by
  rw [relative_to_eq, hd]
  unfold ModContext.to_path_bufs
  simp [ModContext.is_last_ident, hlast, ModSegment.is_ident]

/-- C6 witness: `mod first;` resolved from the root `src/lib.rs` yields
`src/first.rs` strictly before `src/first/mod.rs`. -/
theorem c6_file_before_directory_witness :
    ModContext.relative_to [ModSegment.Ident (strBytes "first")] wLib true =
      some [wLib.pop.join
              ((ModContext.joined [ModSegment.Ident (strBytes "first")]).set_extension
                (strBytes "rs")),
            wLib.pop.join
              ((ModContext.joined [ModSegment.Ident (strBytes "first")]).join
                (PathBuf.rel [strBytes "mod.rs"]))] :=
  c6_file_before_directory [ModSegment.Ident (strBytes "first")] wLib true
    (strBytes "first") rfl wLib.pop (by rfl)

/-- C7: when the last context segment is an explicit path override, the
candidate list is exactly one element: the base directory joined with
the literal joined path, with no extension substitution. -/
theorem c7_explicit_path_exclusive (ctx : ModContext) (base : PathBuf)
    (root : Bool) (p : PathBuf)
    (hlast : ctx.getLast? = some (.Path p))
    (d : PathBuf) (hd : ModContext.baseDir base root = some d) :
    ModContext.relative_to ctx base root =
      some [d.join (ModContext.joined ctx)] := by
  rw [relative_to_eq, hd]
  unfold ModContext.to_path_bufs
  simp [ModContext.is_last_ident, hlast, ModSegment.is_ident]

/-- C7 witness: `#[path = "threads/tls.rs"] mod t;` from the root
`src/lib.rs` yields the single candidate `src/threads/tls.rs`. -/
theorem c7_explicit_path_exclusive_witness :
    ModContext.relative_to
        [ModSegment.Path (PathBuf.rel [strBytes "threads", strBytes "tls.rs"])]
        wLib true =
      some [wLib.pop.join
        (ModContext.joined
          [ModSegment.Path
            (PathBuf.rel [strBytes "threads", strBytes "tls.rs"])])] :=
  c7_explicit_path_exclusive
    [ModSegment.Path (PathBuf.rel [strBytes "threads", strBytes "tls.rs"])]
    wLib true (PathBuf.rel [strBytes "threads", strBytes "tls.rs"]) rfl
    wLib.pop (by rfl)

/-- Mapping the outer-attribute cons over a `find_mod_path` result
preserves not-being-a-panic. -/
theorem find_map_ne_error (fromVec : List Nat → Option PathBuf)
    (a : Attribute) (rest : List Attribute)
    (h : find_mod_path fromVec rest ≠ .error ()) :
    ((find_mod_path fromVec rest).map fun r =>
      r.map fun m =>
        { m with outer_attributes := a :: m.outer_attributes }) ≠
      .error () := by
  cases hres : find_mod_path fromVec rest with
  | error u => cases u; exact absurd hres h
  | ok r => simp [Except.map]

/-- C10: `find_mod_path` is not total: when the first marker-named
attribute parses as a byte-string literal but its payload is rejected by
the platform's `PathBuf::from_vec`, the `expect` panics (modelled as
`Except.error`); and whenever every marker payload converts, the
function returns without panicking. -/
theorem c10_find_mod_path_totality (fromVec : List Nat → Option PathBuf) :
    (∀ (pre : List Attribute) (a : Attribute) (post : List Attribute)
        (bytes : List Nat),
        (∀ b ∈ pre, b.name ≠ markerName) →
        a.name = markerName →
        parseByteStr a = some bytes →
        fromVec bytes = none →
        find_mod_path fromVec (pre ++ a :: post) = .error ()) ∧
    (∀ attrs : List Attribute,
        (∀ a ∈ attrs, a.name = markerName →
          ∀ bytes, parseByteStr a = some bytes →
            (fromVec bytes).isSome = true) →
        find_mod_path fromVec attrs ≠ .error ()) := by
  constructor
  · intro pre a post bytes hpre ha hparse hconv
    induction pre with
    | nil => simp [find_mod_path, ha, hparse, hconv]
    | cons b pre ih =>
        have hb : b.name ≠ markerName := hpre b (by simp)
        have hrec : find_mod_path fromVec (pre ++ a :: post) = .error () :=
          ih fun x hx => hpre x (by simp [hx])
        simp [find_mod_path, hb, hrec, Except.map]
  · intro attrs h
    induction attrs with
    | nil => simp [find_mod_path]
    | cons a rest ih =>
        have ihr : find_mod_path fromVec rest ≠ .error () :=
          ih fun x hx => h x (by simp [hx])
        by_cases hname : a.name = markerName
        · cases hp : parseByteStr a with
          | some bytes =>
              have hs := h a (by simp) hname bytes hp
              obtain ⟨p, hfv⟩ := Option.isSome_iff_exists.mp hs
              simp [find_mod_path, hname, hp, hfv]
          | none =>
              simpa [find_mod_path, hname, hp] using
                find_map_ne_error fromVec a rest ihr
        · simpa [find_mod_path, hname] using
            find_map_ne_error fromVec a rest ihr

/-- C10 witness: on a platform rejecting every byte sequence the single
marker attribute panics; on Unix (all conversions succeed) a list with a
marker attribute is handled without panic. -/
theorem c10_find_mod_path_totality_witness :
    find_mod_path (fun _ => none) [provenanceAttr wFirstRs] = .error () ∧
    find_mod_path unixFromVec [wOuter, provenanceAttr wFirstRs] ≠ .error () :=
  ⟨(c10_find_mod_path_totality (fun _ => none)).1 [] (provenanceAttr wFirstRs)
      [] wFirstRs.to_bytes (by simp) rfl rfl rfl,
   (c10_find_mod_path_totality unixFromVec).2 [wOuter, provenanceAttr wFirstRs]
      (fun _ _ _ _ _ => rfl)⟩

/-- C5 counterexample: the claim is false as stated: at this concrete
input the load of `src/first/mod.rs` is attempted and fails to read, and
the `on_load` callback is not invoked at all for it (zero events), not
exactly once. -/
theorem c5_counterexample :
    (fsResolve wEnvMissing wFirstModRs).1 = Except.error (Error.Io 2) ∧
    (fsResolve wEnvMissing wFirstModRs).2.length ≠ 1 :=
  ⟨rfl, by decide⟩

/-- C5 (amended): the `on_load` callback is invoked exactly once, with
the path and raw contents, for every attempted load whose read succeeds
— whether or not the contents then parse — and is not invoked when the
read itself fails. -/
theorem c5_callback_after_read (env : FsEnv) (p : PathBuf) :
    (∀ src, env.read p = .ok src → (fsResolve env p).2 = [(p, src)]) ∧
    (∀ e, env.read p = .error e → (fsResolve env p).2 = []) := by
  constructor
  · intro src hr
    unfold fsResolve
    rw [hr]
    cases hp : env.parse src <;> simp [hp]
  · intro e hr
    unfold fsResolve
    rw [hr]

/-- C5 witness: the root file's read succeeds (one event, parse aside);
the missing candidate's read fails (no event). -/
theorem c5_callback_after_read_witness :
    (fsResolve wEnvMissing wLib).2 = [(wLib, strBytes "mod first;")] ∧
    (fsResolve wEnvMissing wFirstModRs).2 = [] :=
  ⟨(c5_callback_after_read wEnvMissing wLib).1 (strBytes "mod first;")
      (by rfl),
   (c5_callback_after_read wEnvMissing wFirstModRs).2 2 (by rfl)⟩

/-- Outcome of a forward declaration whose chosen candidate fails to
load: the declaration is left untouched and one record is pushed to the
error log exactly when a log is attached. -/
theorem visitItemMod_failure_eq (fuel : Nat) (res : Resolver) (an tr : Bool)
    (path : PathBuf) (root : Bool) (ctx : ModContext)
    (attrs : List Attribute) (ident : Component) (cands : List PathBuf)
    (c : PathBuf) (evs : List LoadEvent) (kind : Error)
    (hrel : ModContext.relative_to (ctx ++ [modSegmentOf attrs ident])
      path root = some cands)
    (hch : chooseCandidate res.path_exists cands = some c)
    (hvisit : visit fuel res an tr c false = some (evs, .error kind)) :
    visitItemMod (fuel + 1) res an tr path root ctx attrs ident none =
      some (.itemMod attrs ident none,
            if tr then [⟨path, ident, c, kind⟩] else [], evs) := by
  simp only [visit] at hvisit
  simp [visitItemMod, run, hrel, hch, hvisit]

/-- Outcome of a forward declaration whose chosen candidate loads
successfully: the body's items are spliced in, the provenance marker is
appended when annotation is on, and the body's file attributes are
appended after that. -/
theorem visitItemMod_success_eq (fuel : Nat) (res : Resolver) (an tr : Bool)
    (path : PathBuf) (root : Bool) (ctx : ModContext)
    (attrs : List Attribute) (ident : Component) (cands : List PathBuf)
    (c : PathBuf) (evs : List LoadEvent) (fl : File)
    (errs : List InlineError)
    (hrel : ModContext.relative_to (ctx ++ [modSegmentOf attrs ident])
      path root = some cands)
    (hch : chooseCandidate res.path_exists cands = some c)
    (hvisit : visit fuel res an tr c false = some (evs, .ok (fl, errs))) :
    visitItemMod (fuel + 1) res an tr path root ctx attrs ident none =
      some (.itemMod
        ((if an then attrs ++ [provenanceAttr c] else attrs) ++ fl.attrs)
        ident (some fl.items), errs, evs) := by
  simp only [visit] at hvisit
  simp [visitItemMod, run, hrel, hch, hvisit]

/-- C9: sibling declarations are processed in strict source order,
depth-first: a successful walk of `l1 ++ l2` decomposes into a walk of
`l1` followed by one of `l2`, and the rewritten items, the error log
and the load events are each the in-order concatenation of the two
parts, whatever each declaration's resolution outcome was. -/
theorem c9_sibling_order (fuel : Nat) (res : Resolver) (an tr : Bool)
    (path : PathBuf) (root : Bool) (ctx : ModContext)
    (l1 l2 out : List Item) (errs : List InlineError)
    (evs : List LoadEvent)
    (h : visitItems fuel res an tr path root ctx (l1 ++ l2) =
      some (out, errs, evs)) :
    ∃ o1 e1 v1 o2 e2 v2,
      visitItems fuel res an tr path root ctx l1 = some (o1, e1, v1) ∧
      visitItems fuel res an tr path root ctx l2 = some (o2, e2, v2) ∧
      out = o1 ++ o2 ∧ errs = e1 ++ e2 ∧ evs = v1 ++ v2 :=
  visitItems_append res an tr path root ctx l1 fuel l2 out errs evs h

/-- C9 witness: `mod a; mod b;` with both bodies present loads `src/a.rs`
strictly before `src/b.rs`, and the walk splits around the siblings. -/
theorem c9_sibling_order_witness :
    ∃ o1 e1 v1 o2 e2 v2,
      visitItems 6 (fsResolver wEnvTwo) false true wLib true [] [wModA] =
        some (o1, e1, v1) ∧
      visitItems 6 (fsResolver wEnvTwo) false true wLib true [] [wModB] =
        some (o2, e2, v2) ∧
      [Item.itemMod [] (strBytes "a") (some [.other 1]),
       Item.itemMod [] (strBytes "b") (some [.other 2])] = o1 ++ o2 ∧
      ([] : List InlineError) = e1 ++ e2 ∧
      [(wARs, strBytes "A"), (wBRs, strBytes "B")] = v1 ++ v2 :=
  c9_sibling_order 6 (fsResolver wEnvTwo) false true wLib true []
    [wModA] [wModB]
    [Item.itemMod [] (strBytes "a") (some [.other 1]),
     Item.itemMod [] (strBytes "b") (some [.other 2])]
    [] [(wARs, strBytes "A"), (wBRs, strBytes "B")] (by rfl)

/-- C1: an unreadable or unparsable initial file fails the whole entry
call with its error and no partial result, while a failing nested
candidate is non-fatal: the declaration stays an unexpanded forward
declaration, exactly one `InlineError` is recorded (when tracking), and
the walk proceeds to the following siblings. -/
theorem c1_failure_categories :
    (∀ (fuel : Nat) (b : InlinerBuilder) (res : Resolver) (src : PathBuf)
        (e : Error) (ev : List LoadEvent),
        res.resolve src = (.error e, ev) →
        parse_internal (fuel + 1) b res src = some (ev, .error e)) ∧
    (∀ (fuel : Nat) (res : Resolver) (an tr : Bool) (path : PathBuf)
        (root : Bool) (ctx : ModContext) (attrs : List Attribute)
        (ident : Component) (cands : List PathBuf) (c : PathBuf)
        (evs : List LoadEvent) (kind : Error),
        ModContext.relative_to (ctx ++ [modSegmentOf attrs ident])
          path root = some cands →
        chooseCandidate res.path_exists cands = some c →
        visit fuel res an tr c false = some (evs, .error kind) →
        visitItemMod (fuel + 1) res an tr path root ctx attrs ident none =
          some (.itemMod attrs ident none,
                if tr then [⟨path, ident, c, kind⟩] else [], evs)) ∧
    (∀ (f : Nat) (res : Resolver) (an tr : Bool) (path : PathBuf)
        (root : Bool) (ctx : ModContext) (i : Item) (rest : List Item)
        (a : Item × List InlineError × List LoadEvent)
        (b : List Item × List InlineError × List LoadEvent),
        visitItem f res an tr path root ctx i = some a →
        visitItems f res an tr path root ctx rest = some b →
        visitItems (f + 1) res an tr path root ctx (i :: rest) =
          some (a.1 :: b.1, a.2.1 ++ b.2.1, a.2.2 ++ b.2.2)) := by
  refine ⟨?_, ?_, ?_⟩
  · intro fuel b res src e ev hres
    simp [parse_internal, visit, run, hres]
  · intro fuel res an tr path root ctx attrs ident cands c evs kind
      hrel hch hvisit
    exact visitItemMod_failure_eq fuel res an tr path root ctx attrs ident
      cands c evs kind hrel hch hvisit
  · intro f res an tr path root ctx i rest a b ha hb
    rw [visitItems_cons]
    simp [ha, hb]

/-- C1 witness: an unreadable initial file surfaces `Error::Io`
immediately; a missing nested candidate leaves `mod first;` unexpanded
with one recorded error. -/
theorem c1_failure_categories_witness :
    parse_internal 1 InlinerBuilder.default (fsResolver wEnvMissing)
        wFirstRs = some ([], .error (.Io 2)) ∧
    visitItemMod 2 (fsResolver wEnvMissing) false true wLib true [] []
        (strBytes "first") none =
      some (.itemMod [] (strBytes "first") none,
            [⟨wLib, strBytes "first", wFirstModRs, .Io 2⟩], []) :=
  ⟨c1_failure_categories.1 0 InlinerBuilder.default (fsResolver wEnvMissing)
      wFirstRs (.Io 2) [] (by rfl),
   by
    have h := c1_failure_categories.2.1 1 (fsResolver wEnvMissing) false true
      wLib true [] [] (strBytes "first") [wFirstRs, wFirstModRs] wFirstModRs
      [] (.Io 2) (by rfl) (by rfl) (by rfl)
    simpa using h⟩

/-- C3 counterexample: with the default builder — no `trackErrors`
option exists to set — a failing nested module is still collected into
the returned error list, which the claim says only happens when the
caller opts in. -/
theorem c3_counterexample :
    parse_internal 4 InlinerBuilder.default (fsResolver wEnvMissing) wLib =
      some ([(wLib, strBytes "mod first;")],
        .ok { output := { attrs := [], items := [wModFirst] },
              errors := [⟨wLib, strBytes "first", wFirstModRs, Error.Io 2⟩],
              paths_annotated := false }) ∧
    [(⟨wLib, strBytes "first", wFirstModRs, Error.Io 2⟩ : InlineError)] ≠
      [] :=
  ⟨by rfl, by decide⟩

/-- C3 (amended): the entry call exposes no error-tracking option and
always collects failures: the builder's only options are `root` and
`annotate_paths`, `parse_internal` always attaches an error log and
returns the collected failures in the `InliningResult`; the visitor
layer alone supports running without a log, in which case a failure is
silently dropped and the declaration is left as-is. -/
theorem c3_error_tracking_always_on :
    (∀ (fuel : Nat) (b : InlinerBuilder) (res : Resolver) (src : PathBuf)
        (evs : List LoadEvent) (f : File) (errs : List InlineError),
        visit fuel res b.annotate_paths true src b.root =
          some (evs, .ok (f, errs)) →
        parse_internal fuel b res src =
          some (evs, .ok { output := f, errors := errs,
                           paths_annotated := b.annotate_paths })) ∧
    (∀ (fuel : Nat) (res : Resolver) (an : Bool) (path : PathBuf)
        (root : Bool) (ctx : ModContext) (attrs : List Attribute)
        (ident : Component) (cands : List PathBuf) (c : PathBuf)
        (evs : List LoadEvent) (kind : Error),
        ModContext.relative_to (ctx ++ [modSegmentOf attrs ident])
          path root = some cands →
        chooseCandidate res.path_exists cands = some c →
        visit fuel res an false c false = some (evs, .error kind) →
        visitItemMod (fuel + 1) res an false path root ctx attrs ident none =
          some (.itemMod attrs ident none, [], evs)) := by
  constructor
  · intro fuel b res src evs f errs hvisit
    simp [parse_internal, hvisit]
  · intro fuel res an path root ctx attrs ident cands c evs kind
      hrel hch hvisit
    simpa using visitItemMod_failure_eq fuel res an false path root ctx
      attrs ident cands c evs kind hrel hch hvisit

/-- C3 witness: the default entry call returns the collected error; the
visitor run without a log drops the same failure silently. -/
theorem c3_error_tracking_always_on_witness :
    parse_internal 4 InlinerBuilder.default (fsResolver wEnvMissing) wLib =
      some ([(wLib, strBytes "mod first;")],
        .ok { output := { attrs := [], items := [wModFirst] },
              errors := [⟨wLib, strBytes "first", wFirstModRs, Error.Io 2⟩],
              paths_annotated := false }) ∧
    visitItemMod 2 (fsResolver wEnvMissing) false false wLib true [] []
        (strBytes "first") none =
      some (.itemMod [] (strBytes "first") none, [], []) :=
  ⟨c3_error_tracking_always_on.1 4 InlinerBuilder.default
      (fsResolver wEnvMissing) wLib [(wLib, strBytes "mod first;")]
      { attrs := [], items := [wModFirst] }
      [⟨wLib, strBytes "first", wFirstModRs, Error.Io 2⟩] (by rfl),
   c3_error_tracking_always_on.2 1 (fsResolver wEnvMissing) false wLib true
      [] [] (strBytes "first") [wFirstRs, wFirstModRs] wFirstModRs []
      (.Io 2) (by rfl) (by rfl) (by rfl)⟩

/-- C4 counterexample: with annotation on and one pre-existing outer
attribute, the provenance marker lands after that attribute, not before
it: the injected annotation is appended, not prepended. -/
theorem c4_counterexample :
    visitItemMod 3 (fsResolver wEnvOk) true true wLib true [] [wOuter]
        (strBytes "first") none =
      some (.itemMod [wOuter, provenanceAttr wFirstRs, wInner]
              (strBytes "first") (some []), [],
            [(wFirstRs, strBytes "x")]) ∧
    [wOuter, provenanceAttr wFirstRs, wInner].head? ≠
      some (provenanceAttr wFirstRs) :=
  ⟨by rfl, by decide⟩

/-- C4 (amended): with annotation enabled, every successfully inlined
declaration gains exactly one provenance annotation whose payload is
the loaded candidate's bytes, placed after the declaration's existing
declaration-site annotations and before the merged body-level
annotations. -/
theorem c4_provenance_appended (fuel : Nat) (res : Resolver) (tr : Bool)
    (path : PathBuf) (root : Bool) (ctx : ModContext)
    (attrs : List Attribute) (ident : Component) (cands : List PathBuf)
    (c : PathBuf) (evs : List LoadEvent) (fl : File)
    (errs : List InlineError)
    (hrel : ModContext.relative_to (ctx ++ [modSegmentOf attrs ident])
      path root = some cands)
    (hch : chooseCandidate res.path_exists cands = some c)
    (hvisit : visit fuel res true tr c false = some (evs, .ok (fl, errs))) :
    visitItemMod (fuel + 1) res true tr path root ctx attrs ident none =
      some (.itemMod (attrs ++ [provenanceAttr c] ++ fl.attrs) ident
              (some fl.items), errs, evs) := by
  simpa [List.append_assoc] using visitItemMod_success_eq fuel res true tr
    path root ctx attrs ident cands c evs fl errs hrel hch hvisit

/-- A separator-free byte sequence is one whole split group. -/
theorem splitSep_no_sep (c : List Nat) (h : sepByte ∉ c) :
    splitSep c = [c] := by
  induction c with
  | nil => rfl
  | cons b rest ih =>
      have hb : ¬ b = sepByte := fun e => h (by simp [e])
      have hr : sepByte ∉ rest := fun hx => h (List.mem_cons_of_mem _ hx)
      simp [splitSep, hb, ih hr]

/-- Splitting after a separator-free prefix peels that prefix off. -/
theorem splitSep_append_sep (c rest : List Nat) (h : sepByte ∉ c) :
    splitSep (c ++ sepByte :: rest) = c :: splitSep rest := by
  induction c with
  | nil => simp [splitSep]
  | cons b c' ih =>
      have hb : ¬ b = sepByte := fun e => h (by simp [e])
      have hr : sepByte ∉ c' := fun hx => h (List.mem_cons_of_mem _ hx)
      simp [splitSep, hb, ih hr]

/-- A non-empty list is not `isEmpty`. -/
theorem isEmpty_eq_false_of_ne_nil (c : List Nat) (h : c ≠ []) :
    c.isEmpty = false := by
  cases c with
  | nil => exact absurd rfl h
  | cons b rest => rfl

/-- Splitting the separator-joined form of well-formed components and
dropping empty groups recovers the components. -/
theorem filter_splitSep_joinSep (comps : List Component)
    (h : ∀ c ∈ comps, c ≠ [] ∧ sepByte ∉ c) :
    (splitSep (joinSep comps)).filter (fun c => !c.isEmpty) = comps := by
  induction comps with
  | nil => rfl
  | cons c comps ih =>
      have hc := h c (by simp)
      have hcE := isEmpty_eq_false_of_ne_nil c hc.1
      cases comps with
      | nil => simp [joinSep, splitSep_no_sep c hc.2, List.filter, hcE]
      | cons d comps' =>
          have hrest := ih fun x hx => h x (by simp [hx])
          calc (splitSep (joinSep (c :: d :: comps'))).filter
                  (fun c => !c.isEmpty) =
              (c :: splitSep (joinSep (d :: comps'))).filter
                  (fun c => !c.isEmpty) := by
                rw [show joinSep (c :: d :: comps') =
                  c ++ sepByte :: joinSep (d :: comps') from rfl,
                  splitSep_append_sep c _ hc.2]
            _ = c :: (splitSep (joinSep (d :: comps'))).filter
                  (fun c => !c.isEmpty) := by simp [List.filter, hcE]
            _ = c :: d :: comps' := by rw [hrest]

/-- The head of a joined non-empty well-formed component list is the
head of its first component, which is not the separator. -/
theorem joinSep_head_ne_sep (c : List Nat) (rest : List Component)
    (hne : c ≠ []) (hs : sepByte ∉ c) :
    ((joinSep (c :: rest)).head? == some sepByte) = false := by
  rcases c with _ | ⟨b, c'⟩
  · exact absurd rfl hne
  · have hb : ¬ b = sepByte := fun e => hs (by simp [e])
    cases rest <;> simp [joinSep, hb]

/-- Round trip of the provenance wire format: decoding the raw bytes of
a well-formed path recovers the path exactly. -/
theorem ofBytes_to_bytes (p : PathBuf) (h : p.wellFormed) :
    PathBuf.ofBytes p.to_bytes = p := by
  rcases p with ⟨abs, comps⟩
  have hc : ∀ c ∈ comps, c ≠ [] ∧ sepByte ∉ c := h
  cases abs with
  | true =>
      show PathBuf.ofBytes (sepByte :: joinSep comps) = _
      unfold PathBuf.ofBytes
      simp [splitSep, filter_splitSep_joinSep comps hc, List.filter]
  | false =>
      show PathBuf.ofBytes (joinSep comps) = _
      unfold PathBuf.ofBytes
      cases comps with
      | nil => rfl
      | cons c rest =>
          have hc0 := hc c (by simp)
          simp [joinSep_head_ne_sep c rest hc0.1 hc0.2,
            filter_splitSep_joinSep _ hc]

/-- `find_mod_path` at a marker attribute whose payload converts. -/
theorem find_mod_path_marker_head (fromVec : List Nat → Option PathBuf)
    (c : PathBuf) (rest : List Attribute) (p : PathBuf)
    (hfv : fromVec c.to_bytes = some p) :
    find_mod_path fromVec (provenanceAttr c :: rest) =
      .ok (some ⟨p, [], rest⟩) := by
  simp [find_mod_path, provenanceAttr, parseByteStr, markerName, hfv]

/-- `find_mod_path` skips a prefix containing no parsing marker
attribute, prepending it to the extracted outer attributes. -/
theorem find_mod_path_skip (fromVec : List Nat → Option PathBuf)
    (pre : List Attribute)
    (hpre : ∀ a ∈ pre, a.name = markerName → parseByteStr a = none)
    (rest : List Attribute) :
    find_mod_path fromVec (pre ++ rest) =
      (find_mod_path fromVec rest).map fun r => r.map fun m =>
        { m with outer_attributes := pre ++ m.outer_attributes } := by
  induction pre with
  | nil =>
      cases hres : find_mod_path fromVec rest with
      | error u => simpa [Except.map] using hres
      | ok r => cases r <;> simpa [Except.map] using hres
  | cons a pre ih =>
      have ha := hpre a (by simp)
      have ihr := ih fun x hx => hpre x (by simp [hx])
      have hstep : find_mod_path fromVec ((a :: pre) ++ rest) =
          (find_mod_path fromVec (pre ++ rest)).map fun r => r.map fun m =>
            { m with outer_attributes := a :: m.outer_attributes } := by
        by_cases hname : a.name = markerName
        · have hp : parseByteStr a = none := ha hname
          simp [find_mod_path, hname, hp]
        · simp [find_mod_path, hname]
      rw [hstep, ihr]
      cases hres : find_mod_path fromVec rest with
      | error u => simp [Except.map]
      | ok r => cases r <;> simp [Except.map]

/-- C8: with annotation enabled, a successfully inlined declaration's
attribute list, fed to the provenance extractor with the Unix byte
decoder, yields back exactly the candidate location that was loaded —
byte for byte — together with the attributes before and after the
marker, also for locations whose bytes are not text. -/
theorem c8_provenance_roundtrip (fuel : Nat) (res : Resolver) (tr : Bool)
    (path : PathBuf) (root : Bool) (ctx : ModContext)
    (attrs : List Attribute) (ident : Component) (cands : List PathBuf)
    (c : PathBuf) (evs : List LoadEvent) (fl : File)
    (errs : List InlineError)
    (hrel : ModContext.relative_to (ctx ++ [modSegmentOf attrs ident])
      path root = some cands)
    (hch : chooseCandidate res.path_exists cands = some c)
    (hvisit : visit fuel res true tr c false = some (evs, .ok (fl, errs)))
    (hmark : ∀ a ∈ attrs, a.name = markerName → parseByteStr a = none)
    (hwf : c.wellFormed) :
    visitItemMod (fuel + 1) res true tr path root ctx attrs ident none =
      some (.itemMod (attrs ++ [provenanceAttr c] ++ fl.attrs) ident
              (some fl.items), errs, evs) ∧
    find_mod_path unixFromVec (attrs ++ [provenanceAttr c] ++ fl.attrs) =
      .ok (some ⟨c, attrs, fl.attrs⟩) := by
  constructor
  · simpa [List.append_assoc] using visitItemMod_success_eq fuel res true tr
      path root ctx attrs ident cands c evs fl errs hrel hch hvisit
  · have hfv : unixFromVec c.to_bytes = some c := by
      simp [unixFromVec, ofBytes_to_bytes c hwf]
    rw [List.append_assoc, List.singleton_append,
      find_mod_path_skip unixFromVec attrs hmark
        (provenanceAttr c :: fl.attrs),
      find_mod_path_marker_head unixFromVec c fl.attrs c hfv]
    simp [Except.map]

/-- C8 witness: concrete round trip through `src/first.rs`. -/
theorem c8_provenance_roundtrip_witness :
    visitItemMod 3 (fsResolver wEnvOk) true true wLib true [] [wOuter]
        (strBytes "first") none =
      some (.itemMod ([wOuter] ++ [provenanceAttr wFirstRs] ++ [wInner])
              (strBytes "first") (some []), [],
            [(wFirstRs, strBytes "x")]) ∧
    find_mod_path unixFromVec
        ([wOuter] ++ [provenanceAttr wFirstRs] ++ [wInner]) =
      .ok (some ⟨wFirstRs, [wOuter], [wInner]⟩) :=
  c8_provenance_roundtrip 2 (fsResolver wEnvOk) true wLib true [] [wOuter]
    (strBytes "first") [wFirstRs, wFirstModRs] wFirstRs
    [(wFirstRs, strBytes "x")] { attrs := [wInner], items := [] } []
    (by rfl) (by rfl) (by rfl) (by decide) (by decide)

/-- C4 witness: concrete successful inline with one pre-existing outer
attribute and one body attribute. -/
theorem c4_provenance_appended_witness :
    visitItemMod 3 (fsResolver wEnvOk) true true wLib true [] [wOuter]
        (strBytes "first") none =
      some (.itemMod ([wOuter] ++ [provenanceAttr wFirstRs] ++ [wInner])
              (strBytes "first") (some []), [],
            [(wFirstRs, strBytes "x")]) :=
  c4_provenance_appended 2 (fsResolver wEnvOk) true wLib true [] [wOuter]
    (strBytes "first") [wFirstRs, wFirstModRs] wFirstRs
    [(wFirstRs, strBytes "x")] { attrs := [wInner], items := [] } []
    (by rfl) (by rfl) (by rfl)

end SynInlineMod
